import Mathlib

/-!
Verification of the vrdpkg package builder against its specification.

The Rust sources are shallowly embedded:

* A filesystem path is modelled by its list of `/`-separated segments
  (`RawPath` carries an `absolute` flag for a leading `/`).  A segment is an
  atomic string: splitting on `/` means no segment ever contains a `/`.
* `sanitize_path` is translated from `src/path_utils.rs` (the `path_clean`
  crate's lexical cleaning followed by the `..` check, the root strip, the
  join onto the base directory, and the component-wise containment check of
  Rust's `Path::starts_with`).
* File-creating operations are modelled against a small filesystem state
  (`FS`) tracking which directories and files exist, with Rust's
  `fs::create_dir_all` and `File::create` semantics (`File::create` fails when
  the parent directory does not exist).
* The Lua host surface (`mlua`) is modelled by a global environment
  `String → LuaValue` plus a call oracle; `Table::get::<Value>` never fails
  (a missing key converts to `Value::Nil`), which is load-bearing for the
  version-contract check in `main.rs`.
-/

/-- Error type of `src/path_utils.rs` (`PathError`). -/
inductive PathError where
  | pathTraversal
  | notInTargetDir
  | invalidPath (msg : String)
deriving DecidableEq

/-- A caller-supplied path string, modelled by its `/`-separated segments.
`absolute` records a leading `/`; `segs` may contain `""` (redundant
separators), `"."` and `".."` segments exactly as the raw string does. -/
structure RawPath where
  absolute : Bool
  segs : List String
deriving DecidableEq

/-- One step of the `path_clean` crate's lexical cleaning, processing a single
segment against the already-cleaned stack: `.` and empty segments are dropped,
`..` pops a preceding normal segment, is kept at the front of a relative path,
and is dropped at the root of an absolute path; normal segments are pushed. -/
def cleanStep (absolute : Bool) (acc : List String) (s : String) : List String :=
  if s = "" then acc
  else if s = "." then acc
  else if s = ".." then
    match acc.getLast? with
    | some t => if t = ".." then acc ++ [".."] else acc.dropLast
    | none => if absolute then acc else [".."]
  else acc ++ [s]

/-- The `path_clean` crate's `clean` (lexical normalization resolving `.` and
`..` without touching the filesystem).  An empty relative result becomes `.`,
an empty absolute result is the root `/`. -/
def pathClean (p : RawPath) : RawPath :=
  let c := p.segs.foldl (cleanStep p.absolute) []
  if c.isEmpty && !p.absolute then ⟨false, ["."]⟩ else ⟨p.absolute, c⟩

/-- Translated from `sanitize_path` in `src/path_utils.rs`: clean the relative
path, reject any remaining `..` component (`PathTraversal`), strip a leading
root, join onto `base_dir`, and check component-wise containment
(`Path::starts_with`), failing with `NotInTargetDir` otherwise.  The returned
absolute path is represented by its segment list. -/
def sanitize_path (base_dir : List String) (relative_path : RawPath) :
    Except PathError (List String) :=
  let rel_path := pathClean relative_path
  if rel_path.segs.any (fun c => c == "..") then
    .error .pathTraversal
  else
    -- `strip_prefix("/")` drops the root marker; the segments are unchanged
    -- and `base_dir.join` appends them.
    let abs_path := base_dir ++ rel_path.segs
    if base_dir.isPrefixOf abs_path then .ok abs_path
    else .error .notInTargetDir

/-- Rust `PathBuf` equality and `components()` ignore non-leading `.`
segments; for the absolute paths produced by `sanitize_path` the component
view of a segment list simply drops `.` segments. -/
def pathComponents (l : List String) : List String :=
  l.filter (fun s => s != ".")

lemma isPrefixOf_append (l t : List String) : l.isPrefixOf (l ++ t) = true := by
  induction l with
  | nil => simp [List.isPrefixOf]
  | cons a l ih => simp [List.isPrefixOf, ih]

lemma sanitize_path_ok_iff (base_dir : List String) (relative_path : RawPath)
    (q : List String) :
    sanitize_path base_dir relative_path = .ok q ↔
      (pathClean relative_path).segs.any (fun c => c == "..") = false ∧
        q = base_dir ++ (pathClean relative_path).segs := by
  unfold sanitize_path
  rcases h : (pathClean relative_path).segs.any (fun c => c == "..") with _ | _
  · simp only [h, Bool.false_eq_true, if_false,
      isPrefixOf_append, if_true, true_and]
    exact ⟨fun h' => (Except.ok.injEq _ _).mp h' |>.symm,
      fun h' => by rw [h']⟩
  · simp [h]

/-- C1: whenever `sanitize_path` succeeds, the returned absolute path is
lexically prefixed by the base directory: it is exactly the base directory's
segments followed by the cleaned relative segments, so it never lies outside
the base. -/
theorem sanitize_path_confines (base_dir : List String)
    (relative_path : RawPath) (q : List String)
    (h : sanitize_path base_dir relative_path = .ok q) :
    ∃ t, base_dir ++ t = q := by
  obtain ⟨-, hq⟩ := (sanitize_path_ok_iff base_dir relative_path q).mp h
  exact ⟨(pathClean relative_path).segs, hq.symm⟩

/-- C1 witness: a concrete successful confinement, prefixed by the base. -/
theorem sanitize_path_confines_witness :
    ∃ t, ["work", "src"] ++ t = ["work", "src", "a", "b.txt"] :=
  sanitize_path_confines ["work", "src"] ⟨false, ["a", "b.txt"]⟩
    ["work", "src", "a", "b.txt"] rfl

/-- C2: any input that still contains a `..` segment after lexical
normalization is rejected with `PathTraversal`; the normalization
(`pathClean`) is applied before the rejection check, and no path is
returned. -/
theorem sanitize_path_rejects_dotdot (base_dir : List String)
    (relative_path : RawPath)
    (h : (pathClean relative_path).segs.any (fun c => c == "..") = true) :
    sanitize_path base_dir relative_path = .error .pathTraversal := by
  unfold sanitize_path
  simp [h]

/-- C2 witness: `a/../../b` normalizes to `../b` and is rejected. -/
theorem sanitize_path_rejects_dotdot_witness :
    (pathClean ⟨false, ["a", "..", "..", "b"]⟩).segs.any
        (fun c => c == "..") = true ∧
      sanitize_path ["work", "src"] ⟨false, ["a", "..", "..", "b"]⟩ =
        .error .pathTraversal :=
  ⟨by decide,
    sanitize_path_rejects_dotdot ["work", "src"]
      ⟨false, ["a", "..", "..", "b"]⟩ (by decide)⟩

lemma cleanStep_preserves (b : Bool) (acc : List String) (s : String)
    (h : ∀ x ∈ acc, x ≠ "" ∧ x ≠ ".") :
    ∀ x ∈ cleanStep b acc s, x ≠ "" ∧ x ≠ "." := by
  intro x hx
  unfold cleanStep at hx
  split at hx
  · exact h x hx
  split at hx
  · exact h x hx
  split at hx
  · split at hx
    · split at hx
      · rcases List.mem_append.mp hx with h' | h'
        · exact h x h'
        · simp only [List.mem_singleton] at h'
          subst h'
          exact ⟨by decide, by decide⟩
      · exact h x (List.dropLast_subset _ hx)
    · split at hx
      · exact h x hx
      · simp only [List.mem_singleton] at hx
        subst hx
        exact ⟨by decide, by decide⟩
  · rename_i h1 h2 h3
    rcases List.mem_append.mp hx with h' | h'
    · exact h x h'
    · simp only [List.mem_singleton] at h'
      subst h'
      exact ⟨h1, h2⟩

lemma foldl_cleanStep_clean (b : Bool) (l : List String) :
    ∀ (acc : List String), (∀ x ∈ acc, x ≠ "" ∧ x ≠ ".") →
      ∀ x ∈ List.foldl (cleanStep b) acc l, x ≠ "" ∧ x ≠ "." := by
  induction l with
  | nil => intro acc h; simpa using h
  | cons s l ih =>
    intro acc h
    rw [List.foldl_cons]
    exact ih _ (cleanStep_preserves b acc s h)

lemma foldl_cleanStep_normals (b : Bool) (l : List String) :
    ∀ (acc : List String), (∀ x ∈ l, x ≠ "" ∧ x ≠ "." ∧ x ≠ "..") →
      List.foldl (cleanStep b) acc l = acc ++ l := by
  induction l with
  | nil => simp
  | cons s l ih =>
    intro acc h
    have hs := h s (by simp)
    rw [List.foldl_cons]
    have hstep : cleanStep b acc s = acc ++ [s] := by
      unfold cleanStep
      rw [if_neg hs.1, if_neg hs.2.1, if_neg hs.2.2]
    rw [hstep, ih _ (fun x hx => h x (by simp [hx]))]
    simp

lemma pathClean_def (p : RawPath) :
    pathClean p =
      if ((p.segs.foldl (cleanStep p.absolute) []).isEmpty && !p.absolute) = true
      then ⟨false, ["."]⟩
      else ⟨p.absolute, p.segs.foldl (cleanStep p.absolute) []⟩ := rfl

lemma pathClean_fixed (p : RawPath)
    (hno : (pathClean p).segs.any (fun c => c == "..") = false) :
    pathClean ⟨false, (pathClean p).segs⟩ = ⟨false, (pathClean p).segs⟩ ∨
      ((pathClean p).segs = [] ∧
        pathClean ⟨false, (pathClean p).segs⟩ = ⟨false, ["."]⟩) := by
  rcases hc : ((p.segs.foldl (cleanStep p.absolute) []).isEmpty
      && !p.absolute) with _ | _
  · -- the cleaned result is taken verbatim
    have hp : pathClean p = ⟨p.absolute, p.segs.foldl (cleanStep p.absolute) []⟩ := by
      rw [pathClean_def, hc]
      simp
    rw [hp] at hno ⊢
    simp only at hno ⊢
    have hcl : ∀ x ∈ p.segs.foldl (cleanStep p.absolute) [],
        x ≠ "" ∧ x ≠ "." :=
      foldl_cleanStep_clean p.absolute p.segs [] (by simp)
    have hdd : ∀ x ∈ p.segs.foldl (cleanStep p.absolute) [], x ≠ ".." := by
      intro x hx
      have := List.any_eq_false.mp hno x hx
      simpa using this
    have hfold : List.foldl (cleanStep false) []
        (p.segs.foldl (cleanStep p.absolute) []) =
        p.segs.foldl (cleanStep p.absolute) [] := by
      have := foldl_cleanStep_normals false
        (p.segs.foldl (cleanStep p.absolute) []) []
        (fun x hx => ⟨(hcl x hx).1, (hcl x hx).2, hdd x hx⟩)
      simpa using this
    rcases he : (p.segs.foldl (cleanStep p.absolute) []).isEmpty with _ | _
    · left
      rw [pathClean_def]
      simp only [hfold, he, Bool.not_false, Bool.and_true, Bool.false_eq_true,
        if_false]
    · right
      have hn : p.segs.foldl (cleanStep p.absolute) [] = [] :=
        List.isEmpty_iff.mp he
      rw [hn]
      simp [pathClean_def, cleanStep]
  · -- the cleaned result was empty and relative: it becomes "."
    have hp : pathClean p = ⟨false, ["."]⟩ := by
      rw [pathClean_def, hc]
      simp
    rw [hp]
    left
    decide

/-- C9: `sanitize_path` is idempotent on its containment guarantee: stripping
the base prefix from a successfully returned path and feeding the relative
tail back in with the same base yields the same path again (path equality in
the sense of Rust `PathBuf` equality, i.e. equality of the component views,
which ignore `.` segments). -/
theorem sanitize_path_idempotent (base_dir : List String)
    (relative_path : RawPath) (q : List String)
    (h : sanitize_path base_dir relative_path = .ok q) :
    ∃ q', sanitize_path base_dir ⟨false, q.drop base_dir.length⟩ = .ok q' ∧
      pathComponents q' = pathComponents q := by
  obtain ⟨hno, hq⟩ := (sanitize_path_ok_iff base_dir relative_path q).mp h
  subst hq
  rw [List.drop_left]
  rcases pathClean_fixed relative_path hno with hfix | ⟨hnil, hfix⟩
  · refine ⟨base_dir ++ (pathClean relative_path).segs, ?_, rfl⟩
    rw [(sanitize_path_ok_iff base_dir ⟨false, (pathClean relative_path).segs⟩
      (base_dir ++ (pathClean relative_path).segs))]
    rw [hfix]
    exact ⟨hno, rfl⟩
  · refine ⟨base_dir ++ ["."], ?_, ?_⟩
    · rw [(sanitize_path_ok_iff base_dir ⟨false, (pathClean relative_path).segs⟩
        (base_dir ++ ["."]))]
      rw [hfix]
      constructor
      · decide
      · rfl
    · rw [hnil]
      simp [pathComponents]

/-- C9 witness: a concrete successful round trip through `sanitize_path`. -/
theorem sanitize_path_idempotent_witness :
    ∃ q', sanitize_path ["work", "src"]
        ⟨false, (["work", "src", "lib", "z"]).drop (["work", "src"]).length⟩ =
          .ok q' ∧
      pathComponents q' = pathComponents ["work", "src", "lib", "z"] :=
  sanitize_path_idempotent ["work", "src"] ⟨false, ["lib", "z"]⟩
    ["work", "src", "lib", "z"] rfl

/-- Compression codec selected by `extract_tarball` in
`src/file_operations.rs`; `plain` is the uncompressed-tar case (both the
`.tar` branch and the unrecognized-suffix fallback construct
`Archive::new(file)` directly, raising no format-detection error). -/
inductive Codec where
  | gzip
  | bzip2
  | xz
  | zstd
  | plain
deriving DecidableEq

/-- Rust `str::ends_with`, modelled on the character lists of the strings. -/
def endsWithS (s suffix_str : String) : Bool :=
  suffix_str.data.isSuffixOf s.data

/-- Translated from the suffix-dispatch chain of `extract_tarball` in
`src/file_operations.rs` (lines 20-43): the decompression codec is chosen by
matching the source filename's suffix, in the source's branch order, with the
final `else` falling back to uncompressed tar. -/
def extract_codec (path_str : String) : Codec :=
  if endsWithS path_str ".tar.gz" || endsWithS path_str ".tgz" then .gzip
  else if endsWithS path_str ".tar.bz2" || endsWithS path_str ".tbz2" then .bzip2
  else if endsWithS path_str ".tar.xz" || endsWithS path_str ".txz" then .xz
  else if endsWithS path_str ".tar.zst" || endsWithS path_str ".tzst" then .zstd
  else if endsWithS path_str ".tar" then .plain
  else .plain

lemma endsWithS_disjoint (a b : String)
    (hab : ¬ a.data <:+ b.data) (hba : ¬ b.data <:+ a.data) :
    ∀ s : String, endsWithS s a = true → endsWithS s b = false := by
  intro s ha
  rcases hb : endsWithS s b with _ | _
  · rfl
  · exfalso
    have ha' : a.data <:+ s.data := List.isSuffixOf_iff_suffix.mp ha
    have hb' : b.data <:+ s.data := List.isSuffixOf_iff_suffix.mp hb
    rcases List.suffix_or_suffix_of_suffix ha' hb' with h | h
    · exact hab h
    · exact hba h

/-- C7: the codec is selected purely from the filename suffix per the fixed
table (gzip for `.tar.gz`/`.tgz`, bzip2 for `.tar.bz2`/`.tbz2`, xz for
`.tar.xz`/`.txz`, zstd for `.tar.zst`/`.tzst`, none for `.tar`), and every
unrecognized suffix falls back to uncompressed tar; `extract_codec` is total,
so no format-detection error is possible. -/
theorem extract_codec_table :
    (∀ s, endsWithS s ".tar.gz" = true ∨ endsWithS s ".tgz" = true →
      extract_codec s = .gzip) ∧
    (∀ s, endsWithS s ".tar.bz2" = true ∨ endsWithS s ".tbz2" = true →
      extract_codec s = .bzip2) ∧
    (∀ s, endsWithS s ".tar.xz" = true ∨ endsWithS s ".txz" = true →
      extract_codec s = .xz) ∧
    (∀ s, endsWithS s ".tar.zst" = true ∨ endsWithS s ".tzst" = true →
      extract_codec s = .zstd) ∧
    (∀ s, endsWithS s ".tar" = true → extract_codec s = .plain) ∧
    (∀ s, endsWithS s ".tar.gz" = false → endsWithS s ".tgz" = false →
      endsWithS s ".tar.bz2" = false → endsWithS s ".tbz2" = false →
      endsWithS s ".tar.xz" = false → endsWithS s ".txz" = false →
      endsWithS s ".tar.zst" = false → endsWithS s ".tzst" = false →
      endsWithS s ".tar" = false → extract_codec s = .plain) := by
  refine ⟨?_, ?_, ?_, ?_, ?_, ?_⟩
  · intro s h
    rcases h with h | h <;> simp [extract_codec, h]
  · intro s h
    rcases h with h | h <;>
    · have h1 := endsWithS_disjoint _ ".tar.gz" (by decide) (by decide) s h
      have h2 := endsWithS_disjoint _ ".tgz" (by decide) (by decide) s h
      simp [extract_codec, h, h1, h2]
  · intro s h
    rcases h with h | h <;>
    · have h1 := endsWithS_disjoint _ ".tar.gz" (by decide) (by decide) s h
      have h2 := endsWithS_disjoint _ ".tgz" (by decide) (by decide) s h
      have h3 := endsWithS_disjoint _ ".tar.bz2" (by decide) (by decide) s h
      have h4 := endsWithS_disjoint _ ".tbz2" (by decide) (by decide) s h
      simp [extract_codec, h, h1, h2, h3, h4]
  · intro s h
    rcases h with h | h <;>
    · have h1 := endsWithS_disjoint _ ".tar.gz" (by decide) (by decide) s h
      have h2 := endsWithS_disjoint _ ".tgz" (by decide) (by decide) s h
      have h3 := endsWithS_disjoint _ ".tar.bz2" (by decide) (by decide) s h
      have h4 := endsWithS_disjoint _ ".tbz2" (by decide) (by decide) s h
      have h5 := endsWithS_disjoint _ ".tar.xz" (by decide) (by decide) s h
      have h6 := endsWithS_disjoint _ ".txz" (by decide) (by decide) s h
      simp [extract_codec, h, h1, h2, h3, h4, h5, h6]
  · intro s h
    have h1 := endsWithS_disjoint _ ".tar.gz" (by decide) (by decide) s h
    have h2 := endsWithS_disjoint _ ".tgz" (by decide) (by decide) s h
    have h3 := endsWithS_disjoint _ ".tar.bz2" (by decide) (by decide) s h
    have h4 := endsWithS_disjoint _ ".tbz2" (by decide) (by decide) s h
    have h5 := endsWithS_disjoint _ ".tar.xz" (by decide) (by decide) s h
    have h6 := endsWithS_disjoint _ ".txz" (by decide) (by decide) s h
    have h7 := endsWithS_disjoint _ ".tar.zst" (by decide) (by decide) s h
    have h8 := endsWithS_disjoint _ ".tzst" (by decide) (by decide) s h
    simp [extract_codec, h, h1, h2, h3, h4, h5, h6, h7, h8]
  · intro s h1 h2 h3 h4 h5 h6 h7 h8 h9
    simp [extract_codec, h1, h2, h3, h4, h5, h6, h7, h8, h9]

/-- C7 witness: concrete filenames for a table entry, the `.tar` entry, and
the unrecognized-suffix fallback. -/
theorem extract_codec_table_witness :
    extract_codec "pkg-1.0.tar.gz" = .gzip ∧
      extract_codec "pkg-1.0.tar" = .plain ∧
      extract_codec "pkg-1.0.bin" = .plain :=
  ⟨extract_codec_table.1 "pkg-1.0.tar.gz" (Or.inl (by decide)),
    extract_codec_table.2.2.2.2.1 "pkg-1.0.tar" (by decide),
    extract_codec_table.2.2.2.2.2 "pkg-1.0.bin" (by decide) (by decide)
      (by decide) (by decide) (by decide) (by decide) (by decide) (by decide)
      (by decide)⟩

/-- A Lua value as exchanged across the `mlua` boundary (only the shapes the
claims need: nil, booleans, strings, functions and tables). -/
inductive LuaValue where
  | nil
  | boolean (b : Bool)
  | str (s : String)
  | func
  | table
deriving DecidableEq

/-- `mlua`'s `Table::get::<Value>(key)`: indexing a table can only produce a
Lua value, and converting any Lua value (including the `nil` returned for a
missing key) to `Value` always succeeds, so the call is `Ok` for every key. -/
def luaGetValue (globals : String → LuaValue) (key : String) :
    Except String LuaValue :=
  .ok (globals key)

/-- Translated from `main.rs` lines 231-241: `version_function_exists` is
`lua.globals().get::<Value>("VERSION").is_ok()`, then the two fatal checks on
the version declaration run in source order.  `some 1` models
`process::exit(1)` with the corresponding diagnostic; `none` means the checks
passed. -/
def versionContractCheck (globals : String → LuaValue)
    (version : Option String) : Option Nat :=
  let version_function_exists := (luaGetValue globals "VERSION").isOk
  if version.isNone && !version_function_exists then some 1
  else if version.isSome && version_function_exists then some 1
  else none

/-- C3 (code bug): a recipe declaring only a literal `version` (no `VERSION`
global at all) is nevertheless rejected by the validation in `main.rs`.
`get::<Value>("VERSION")` is `Ok(Value::Nil)` even when the global is absent,
so `version_function_exists` is always `true` and the `version.is_some() &&
version_function_exists` branch fires, printing "version field and VERSION
function both found" and exiting 1 — contradicting the spec's requirement
that declaring exactly one channel is accepted. -/
theorem versionContractCheck_rejects_literal_only :
    versionContractCheck (fun _ => LuaValue.nil) (some "1.2.3") = some 1 ∧
      (luaGetValue (fun _ => LuaValue.nil) "VERSION").isOk = true := by
  constructor <;> rfl

/-- `mlua`'s `FromLua` conversion to `Option<String>` as used by
`run_function::<Option<String>>` for the `VERSION` callback result: `nil`
becomes `None`, a string becomes `Some`, anything else fails conversion. -/
def luaToOptString : LuaValue → Except Unit (Option String)
  | .nil => .ok none
  | .str s => .ok (some s)
  | _ => .error ()

/-- The recipe metadata struct `PackageInfo` of `main.rs`. -/
structure PackageInfo where
  name : String
  description : String
  version : Option String
  license : String
  dev : Bool
  dependencies : List String
  build_dependencies : List String
  optional_dependencies : List String
  conflicts : List String
  provides : List String
  replaces : List String
  arch : List String
  url : String
  maintainers : List String
deriving DecidableEq

/-- The scripting state `main` runs against after the recipe body has been
evaluated: the global environment, an oracle for what calling a global
function returns (`Ok` result value or a raised script error), and the host
architecture. -/
structure MainEnv where
  globals : String → LuaValue
  call : String → Except String LuaValue
  hostArch : String

/-- Translated from `run_function` in `main.rs`: fetching the global as a
`Function` fails (exit 1, "Function ... not found") unless the global holds a
function; a raised error during the call is also fatal (exit 1). -/
def run_function (env : MainEnv) (function_name : String) :
    Except Nat LuaValue :=
  match env.globals function_name with
  | .func =>
    match env.call function_name with
    | .ok v => .ok v
    | .error _ => .error 1
  | _ => .error 1

/-- Result of the post-load portion of `main`: which lifecycle callbacks were
invoked (in order), and `some code` if the process terminated early
(`process::exit` or a panic), `none` if it fell through to Finalize. -/
structure LifeResult where
  invoked : List String
  exit : Option Nat
deriving DecidableEq

/-- Translated from `main.rs` lines 231-261: the version-declaration checks,
`SOURCES`, version resolution via the `VERSION` callback (whose `None` result
panics at the `version.clone().unwrap()` in the status println, modelled as
exit code 101), the architecture gate, then `PREPARE` and `PACKAGE`. -/
def mainAfterLoad (env : MainEnv) (info : PackageInfo) : LifeResult :=
  match versionContractCheck env.globals info.version with
  | some code => ⟨[], some code⟩
  | none =>
    match run_function env "SOURCES" with
    | .error code => ⟨["SOURCES"], some code⟩
    | .ok _ =>
      let resolved : List String × Except Nat (Option String) :=
        match info.version with
        | some v => (["SOURCES"], .ok (some v))
        | none =>
          match run_function env "VERSION" with
          | .error code => (["SOURCES", "VERSION"], .error code)
          | .ok v =>
            match luaToOptString v with
            | .ok s => (["SOURCES", "VERSION"], .ok s)
            | .error _ => (["SOURCES", "VERSION"], .error 1)
      match resolved.2 with
      | .error code => ⟨resolved.1, some code⟩
      | .ok none => ⟨resolved.1, some 101⟩
      | .ok (some _) =>
        if env.hostArch ∈ info.arch then
          match run_function env "PREPARE" with
          | .error code => ⟨resolved.1 ++ ["PREPARE"], some code⟩
          | .ok _ =>
            match run_function env "PACKAGE" with
            | .error code => ⟨resolved.1 ++ ["PREPARE", "PACKAGE"], some code⟩
            | .ok _ => ⟨resolved.1 ++ ["PREPARE", "PACKAGE"], none⟩
        else ⟨resolved.1, some 1⟩

lemma versionContractCheck_some (globals : String → LuaValue)
    (version : Option String) (code : Nat)
    (h : versionContractCheck globals version = some code) : code = 1 := by
  cases version with
  | none =>
    have hn : versionContractCheck globals none = none := rfl
    rw [hn] at h
    exact absurd h (by simp)
  | some v =>
    have hs : versionContractCheck globals (some v) = some 1 := rfl
    rw [hs] at h
    exact ((Option.some.injEq _ _).mp h).symm

lemma run_function_error (env : MainEnv) (function_name : String) (code : Nat)
    (h : run_function env function_name = .error code) : code = 1 := by
  unfold run_function at h
  split at h
  · split at h
    · exact absurd h (by simp)
    · exact ((Except.error.injEq _ _).mp h).symm
  · exact ((Except.error.injEq _ _).mp h).symm

/-- C8: if the declared architecture list does not contain the host
architecture, the run never invokes `PREPARE` or `PACKAGE` and terminates
with a non-zero status; when every earlier stage succeeds, the exit happens
at the gate right after version resolution. -/
theorem arch_gate_fatal (env : MainEnv) (info : PackageInfo)
    (h : env.hostArch ∉ info.arch) :
    "PREPARE" ∉ (mainAfterLoad env info).invoked ∧
      "PACKAGE" ∉ (mainAfterLoad env info).invoked ∧
      ∃ code, (mainAfterLoad env info).exit = some code ∧ code ≠ 0 := by
  unfold mainAfterLoad
  rcases hv : versionContractCheck env.globals info.version with _ | code
  · rcases hs : run_function env "SOURCES" with code | v0
    · have hc := run_function_error env "SOURCES" code hs
      subst hc
      simp only [hv, hs]
      exact ⟨by decide, by decide, 1, rfl, by decide⟩
    · rcases hver : info.version with _ | ver
      · rcases hV : run_function env "VERSION" with code | rv
        · have hc := run_function_error env "VERSION" code hV
          subst hc
          simp only [hv, hs, hver, hV]
          exact ⟨by decide, by decide, 1, rfl, by decide⟩
        · rcases hos : luaToOptString rv with u | s
          · simp only [hv, hs, hver, hV, hos]
            exact ⟨by decide, by decide, 1, rfl, by decide⟩
          · rcases s with _ | vs
            · simp only [hv, hs, hver, hV, hos]
              exact ⟨by decide, by decide, 101, rfl, by decide⟩
            · simp only [hv, hs, hver, hV, hos, if_neg h]
              exact ⟨by decide, by decide, 1, rfl, by decide⟩
      · simp only [hv, hs, hver, if_neg h]
        exact ⟨by decide, by decide, 1, rfl, by decide⟩
  · have hc := versionContractCheck_some env.globals info.version code hv
    subst hc
    simp only [hv]
    exact ⟨by decide, by decide, 1, rfl, by decide⟩

/-- C8 witness: a recipe resolving its version through `VERSION` but declaring
only `aarch64` on an `x86_64` host stops at the architecture gate with exit
code 1, having run only `SOURCES` and `VERSION`. -/
theorem arch_gate_fatal_witness :
    "PREPARE" ∉ (mainAfterLoad
        ⟨fun _ => LuaValue.func, fun _ => Except.ok (LuaValue.str "1.0.0"),
          "x86_64"⟩
        ⟨"tool", "a tool", none, "MIT", false, [], [], [], [], ["tool"], [],
          ["aarch64"], "https://example.org", ["m"]⟩).invoked ∧
      "PACKAGE" ∉ (mainAfterLoad
        ⟨fun _ => LuaValue.func, fun _ => Except.ok (LuaValue.str "1.0.0"),
          "x86_64"⟩
        ⟨"tool", "a tool", none, "MIT", false, [], [], [], [], ["tool"], [],
          ["aarch64"], "https://example.org", ["m"]⟩).invoked ∧
      ∃ code, (mainAfterLoad
        ⟨fun _ => LuaValue.func, fun _ => Except.ok (LuaValue.str "1.0.0"),
          "x86_64"⟩
        ⟨"tool", "a tool", none, "MIT", false, [], [], [], [], ["tool"], [],
          ["aarch64"], "https://example.org", ["m"]⟩).exit = some code ∧
        code ≠ 0 :=
  arch_gate_fatal _ _ (by decide)

/-- Outcome of a host-API call as observed at the process level: a
recoverable `mlua` runtime error returned to the recipe, a Rust panic
(aborting the build process), or success carrying the confined path. -/
inductive CallOutcome where
  | luaError (msg : String)
  | panicAbort (msg : String)
  | ok (path : List String)
deriving DecidableEq

/-- The printable message of a `PathError` (its `thiserror` display text). -/
def pathErrorMessage : PathError → String
  | .pathTraversal => "Path traversal attack detected"
  | .notInTargetDir => "Path not contained in target directory"
  | .invalidPath m => "Invalid path: " ++ m

/-- Translated from the `git.clone` handler in `src/lua_functions.rs` (lines
100-111): the destination (defaulting to `"."`) is passed to `sanitize_path`
and the result is `.unwrap()`ed — a confinement failure panics instead of
being mapped to a Lua error. -/
def git_clone_confine (src_dir : List String) (dest : Option RawPath) :
    CallOutcome :=
  match sanitize_path src_dir (dest.getD ⟨false, ["."]⟩) with
  | .ok p => .ok p
  | .error _ => .panicAbort "called `Result::unwrap()` on an `Err` value"

/-- Translated from the `git.load` handler in `src/lua_functions.rs` (line
127): the repository path is passed to `sanitize_path` and `.unwrap()`ed. -/
def git_load_confine (src_dir : List String) (repo : RawPath) : CallOutcome :=
  match sanitize_path src_dir repo with
  | .ok p => .ok p
  | .error _ => .panicAbort "called `Result::unwrap()` on an `Err` value"

/-- Translated from the `file_load` handler in `src/lua_functions.rs` (lines
172-180): a confinement failure is mapped to `LuaError::RuntimeError`, i.e. a
recoverable failure of the individual call. -/
def file_load_confine (src_dir : List String) (path : RawPath) : CallOutcome :=
  match sanitize_path src_dir path with
  | .ok p => .ok p
  | .error e => .luaError ("Path error: " ++ pathErrorMessage e)

/-- C4 (code bug): a traversal destination handed to `git.clone` or
`git.load` makes the handler panic (`sanitize_path(...).unwrap()`), aborting
the whole process, while the same failure in the other confined operations
(e.g. `file_load`) is returned to the recipe as a recoverable runtime error —
contradicting the spec's propagation policy that every confinement failure
surfaces to the recipe as a failure of the individual call. -/
theorem git_confine_failure_panics :
    git_clone_confine ["work", "src"] (some ⟨false, ["..", "escape"]⟩) =
        .panicAbort "called `Result::unwrap()` on an `Err` value" ∧
      git_load_confine ["work", "src"] ⟨false, ["..", "escape"]⟩ =
        .panicAbort "called `Result::unwrap()` on an `Err` value" ∧
      file_load_confine ["work", "src"] ⟨false, ["..", "escape"]⟩ =
        .luaError ("Path error: " ++ pathErrorMessage .pathTraversal) :=
  ⟨rfl, rfl, rfl⟩

/-- Translated from `regex_match` in `src/lua_functions.rs` (lines 43-56),
parameterized over the external `regex` crate: `compile` is `Regex::new`
(failing exactly on syntactically invalid patterns, mapped to
`LuaError::RuntimeError`), `captures re text` is `re.captures(&text)`
(`none` when the pattern finds no match), and `capGet caps i` is
`caps.get(i).map(|m| m.as_str().to_string())`. -/
def regex_match {R C : Type} (compile : String → Except String R)
    (captures : R → String → Option C) (capGet : C → Nat → Option String)
    (text pattern : String) :
    Except String (Option String × Option String × Option String × Option String) :=
  match compile pattern with
  | .error e => .error e
  | .ok re =>
    match captures re text with
    | some caps => .ok (capGet caps 1, capGet caps 2, capGet caps 3, capGet caps 4)
    | none => .ok (none, none, none, none)

/-- C10: for every valid pattern and text in which it finds no match,
`regex_match` succeeds with all four captures absent; and whenever
`regex_match` raises an error, the error came from pattern compilation, so an
error is only possible for a syntactically invalid pattern. -/
theorem regex_match_no_match {R C : Type} (compile : String → Except String R)
    (captures : R → String → Option C) (capGet : C → Nat → Option String)
    (text pattern : String) :
    (∀ re, compile pattern = .ok re → captures re text = none →
      regex_match compile captures capGet text pattern =
        .ok (none, none, none, none)) ∧
    (∀ e, regex_match compile captures capGet text pattern = .error e →
      compile pattern = .error e) := by
  constructor
  · intro re hc hn
    simp only [regex_match, hc, hn]
  · intro e he
    unfold regex_match at he
    rcases hc : compile pattern with e' | re
    · simp only [hc] at he
      have he' : e' = e := by injection he
      rw [he']
    · simp only [hc] at he
      rcases hcap : captures re text with _ | caps
      · simp only [hcap] at he
        exact Except.noConfusion he
      · simp only [hcap] at he
        exact Except.noConfusion he

/-- C10 witness: a concrete engine instance with a pattern that compiles and
finds no match yields four absent captures. -/
theorem regex_match_no_match_witness :
    regex_match (R := Unit) (C := Unit) (fun _ => .ok ())
        (fun _ _ => none) (fun _ _ => none) "hello" "v([0-9]+)" =
      .ok (none, none, none, none) :=
  (regex_match_no_match (fun _ => .ok ()) (fun _ _ => none) (fun _ _ => none)
    "hello" "v([0-9]+)").1 () rfl rfl

/-- I/O errors of the filesystem model: a missing parent directory
(`NotFound`), an already-existing link path (`EEXIST`), or an attempt to
`fs::copy` a directory. -/
inductive IoErr where
  | notFound
  | alreadyExists
  | isADirectory
deriving DecidableEq

/-- Error of a host filesystem operation: a confinement failure, an I/O
failure, or a `LuaError::RuntimeError` raised by the handler itself. -/
inductive HostErr where
  | path (e : PathError)
  | io (e : IoErr)
  | runtime (msg : String)
deriving DecidableEq

/-- All ancestor paths of a path, the path itself included (`[]` is the
filesystem root). -/
def listAncestors : List String → List (List String)
  | [] => [[]]
  | a :: l => [] :: (listAncestors l).map (fun p => a :: p)

/-- A filesystem state: the existing directories and regular files, each
identified by its absolute path's segment list. -/
structure FS where
  dirs : List (List String)
  files : List (List String)
deriving DecidableEq

/-- Rust `fs::create_dir_all`: creates the directory and every missing
ancestor. -/
def FS.createDirAll (fs : FS) (p : List String) : FS :=
  ⟨listAncestors p ++ fs.dirs, fs.files⟩

/-- Rust `fs::File::create` / `fs::write` at the existence level: fails with
`NotFound` unless the parent directory exists, otherwise creates (or
truncates) the file. -/
def FS.fileCreate (fs : FS) (p : List String) : Except IoErr FS :=
  match p with
  | [] => .error .notFound
  | _ => if p.dropLast ∈ fs.dirs then .ok ⟨fs.dirs, p :: fs.files⟩
         else .error .notFound

/-- Translated from `download_file_blocking` in `src/file_operations.rs`
(lines 134-152): `create_dir_all(dest_dir)` on the base directory itself,
then `sanitize_path(dest_dir, filename)`, then `File::create(dest_path)`.
No parent of the confined destination is created.  (The network transfer
does not affect which filesystem entries exist and is omitted.) -/
def download_file_blocking (fs : FS) (dest_dir : List String)
    (filename : RawPath) : Except HostErr FS :=
  let fs1 := fs.createDirAll dest_dir
  match sanitize_path dest_dir filename with
  | .error e => .error (.path e)
  | .ok dest_path =>
    match fs1.fileCreate dest_path with
    | .error e => .error (.io e)
    | .ok fs2 => .ok fs2

/-- Translated from the `file_save` handler in `src/lua_functions.rs` (lines
185-199): confine the path, `create_dir_all` on its parent when it has one,
then `fs::write`. -/
def file_save (fs : FS) (src_dir : List String) (path : RawPath)
    (_content : String) : Except HostErr FS :=
  match sanitize_path src_dir path with
  | .error e => .error (.path e)
  | .ok abs_path =>
    let fs1 := match abs_path with
               | [] => fs
               | _ :: _ => fs.createDirAll abs_path.dropLast
    match fs1.fileCreate abs_path with
    | .error e => .error (.io e)
    | .ok fs2 => .ok fs2

lemma self_mem_listAncestors (p : List String) : p ∈ listAncestors p := by
  induction p with
  | nil => simp [listAncestors]
  | cons a l ih =>
    simp only [listAncestors, List.mem_cons, List.mem_map]
    exact Or.inr ⟨l, ih, rfl⟩

/-- C5 counterexample: with only the base's parent existing, a download whose
destination filename contains an intermediate directory (`a/b.txt`) fails
with `NotFound` even though its confinement succeeded — the claimed implicit
creation of the destination's parent directories does not happen for
`download`. -/
theorem download_nested_dest_fails :
    download_file_blocking ⟨[["work"]], []⟩ ["work", "src"]
        ⟨false, ["a", "b.txt"]⟩ = .error (.io .notFound) ∧
      sanitize_path ["work", "src"] ⟨false, ["a", "b.txt"]⟩ =
        .ok ["work", "src", "a", "b.txt"] :=
  ⟨rfl, rfl⟩

/-- A filesystem tree node as seen by the directory walks: a regular file, a
symlink whose target is not a directory, a symlink whose target is a
directory (with the listing reachable through it — Rust's `Path::is_dir`
follows symlinks), or a directory with its children in iteration order.
Trees are finite, so a cyclic symlink chain (on which the real walk
diverges into a `read_dir` error and a panic) is not representable. -/
inductive FsNode where
  | file (name : String)
  | symlink (name : String)
  | symlinkDir (name : String) (children : List FsNode)
  | dir (name : String) (children : List FsNode)

/-- Translated from `visit_dirs` in `main.rs` (lines 300-321): for each entry
in order, push the full path when `is_file() || is_symlink()` holds, and
recurse when `is_dir()` holds.  Both `is_file` and `is_dir` follow symlinks,
so a symlink whose target is a directory is pushed (it `is_symlink()`) and
then also recursed into (it `is_dir()`); plain directories are only recursed
into, never pushed.  `path` is the absolute path of the directory walked. -/
def visit_dirs (path : List String) : List FsNode → List (List String)
  | [] => []
  | FsNode.file n :: rest => (path ++ [n]) :: visit_dirs path rest
  | FsNode.symlink n :: rest => (path ++ [n]) :: visit_dirs path rest
  | FsNode.symlinkDir n cs :: rest =>
      (path ++ [n]) :: (visit_dirs (path ++ [n]) cs ++ visit_dirs path rest)
  | FsNode.dir n cs :: rest =>
      visit_dirs (path ++ [n]) cs ++ visit_dirs path rest

/-- Rust `Path::strip_prefix` on segment lists: succeeds exactly when the
base is a component-wise prefix, returning the relative remainder. -/
def rustStripPrefix (base p : List String) : Option (List String) :=
  if base.isPrefixOf p then some (p.drop base.length) else none

/-- Translated from `main.rs` line 267: each collected path is stripped of
the package-root prefix (`.unwrap()`, modelled as `Option` propagation) and
prefixed with `/`; the resulting manifest lines are written one per line. -/
def manifestLines (pkg_dir : List String) :
    List (List String) → Option (List String)
  | [] => some []
  | f :: rest =>
    match rustStripPrefix pkg_dir f, manifestLines pkg_dir rest with
    | some r, some ls => some (("/" ++ String.intercalate "/" r) :: ls)
    | _, _ => none

/-- The `.pkgfiles` content produced at Finalize for a package tree whose
root directory has the given children. -/
def pkgfiles (pkg_dir : List String) (children : List FsNode) :
    Option (List String) :=
  manifestLines pkg_dir (visit_dirs pkg_dir children)

/-- Follows the spec's words (§3 Manifest entry): the path, relative to the
package root, of every regular file or symlink present in the tree — a
symlink is one entry regardless of its target; directories are not listed;
order is the depth-first walk order. -/
def specFilePaths : List FsNode → List (List String)
  | [] => []
  | FsNode.file n :: rest => [n] :: specFilePaths rest
  | FsNode.symlink n :: rest => [n] :: specFilePaths rest
  | FsNode.symlinkDir n _ :: rest => [n] :: specFilePaths rest
  | FsNode.dir n cs :: rest =>
      (specFilePaths cs).map (fun r => n :: r) ++ specFilePaths rest

/-- Follows the spec's words (§6): the manifest lists the package-relative
paths one per line, each prefixed with `/`. -/
def specManifest (children : List FsNode) : List String :=
  (specFilePaths children).map (fun r => "/" ++ String.intercalate "/" r)

/-- `true` when no symlink anywhere in the tree points at a directory. -/
def noDirSymlinks : List FsNode → Bool
  | [] => true
  | FsNode.file _ :: rest => noDirSymlinks rest
  | FsNode.symlink _ :: rest => noDirSymlinks rest
  | FsNode.symlinkDir _ _ :: _ => false
  | FsNode.dir _ cs :: rest => noDirSymlinks cs && noDirSymlinks rest

set_option maxRecDepth 4096 in
lemma visit_dirs_eq_spec (path : List String) (children : List FsNode) :
    noDirSymlinks children = true →
      visit_dirs path children =
        (specFilePaths children).map (fun r => path ++ r) := by
  induction path, children using visit_dirs.induct with
  | case1 p => intro _; simp [visit_dirs, specFilePaths]
  | case2 p n rest ih =>
    intro h
    simp only [noDirSymlinks] at h
    simp [visit_dirs, specFilePaths, ih h]
  | case3 p n rest ih =>
    intro h
    simp only [noDirSymlinks] at h
    simp [visit_dirs, specFilePaths, ih h]
  | case4 p n cs rest ih1 ih2 =>
    intro h
    simp [noDirSymlinks] at h
  | case5 p n cs rest ih1 ih2 =>
    intro h
    simp only [noDirSymlinks, Bool.and_eq_true] at h
    obtain ⟨h1, h2⟩ := h
    simp only [visit_dirs, specFilePaths, ih1 h1, ih2 h2, List.map_append,
      List.map_map]
    congr 1
    apply List.map_congr_left
    intro r _
    simp [Function.comp, List.append_assoc]

lemma rustStripPrefix_append (b r : List String) :
    rustStripPrefix b (b ++ r) = some r := by
  unfold rustStripPrefix
  rw [if_pos (isPrefixOf_append b r), List.drop_left]

lemma manifestLines_map (pkg : List String) (l : List (List String)) :
    manifestLines pkg (l.map (fun r => pkg ++ r)) =
      some (l.map (fun r => "/" ++ String.intercalate "/" r)) := by
  induction l with
  | nil => rfl
  | cons r l ih =>
    simp only [List.map_cons, manifestLines, rustStripPrefix_append, ih]

/-- C6 counterexample: a package tree holding a single symlink `ext` whose
target is a directory containing a file `f`.  The walk pushes the symlink
(`is_symlink()`) and then also recurses into it (`is_dir()` follows
symlinks), so the manifest gains the extra line `/ext/f` — not "exactly one
entry per regular file or symlink present under the package root" (which
would be just `/ext`), refuting the claim as stated. -/
theorem manifest_symlink_dir_counterexample :
    pkgfiles ["proj", "pkg"] [FsNode.symlinkDir "ext" [FsNode.file "f"]] =
        some ["/ext", "/ext/f"] ∧
      specManifest [FsNode.symlinkDir "ext" [FsNode.file "f"]] = ["/ext"] ∧
      pkgfiles ["proj", "pkg"] [FsNode.symlinkDir "ext" [FsNode.file "f"]] ≠
        some (specManifest [FsNode.symlinkDir "ext" [FsNode.file "f"]]) := by
  have hw : visit_dirs ["proj", "pkg"]
      [FsNode.symlinkDir "ext" [FsNode.file "f"]] =
      [["proj", "pkg", "ext"], ["proj", "pkg", "ext", "f"]] := by
    simp [visit_dirs]
  have hs : specManifest [FsNode.symlinkDir "ext" [FsNode.file "f"]] =
      ["/ext"] := by
    simp only [specManifest, specFilePaths, List.map]
    decide
  refine ⟨?_, hs, ?_⟩
  · simp only [pkgfiles, hw]
    decide
  · simp only [pkgfiles, hw, hs]
    decide

/-- C6 amended: provided no symlink under the package root points at a
directory, the manifest at Finalize holds exactly one line per regular file
or symlink — the package-root-relative path prefixed with `/`, in walk order,
directories excluded; a symlink-to-directory is instead both listed and
recursed into (see the counterexample).  In particular a package tree
containing only `usr/bin/tool` yields exactly the manifest `/usr/bin/tool`. -/
theorem manifest_lists_files :
    (∀ (pkg_dir : List String) (children : List FsNode),
      noDirSymlinks children = true →
      pkgfiles pkg_dir children = some (specManifest children)) ∧
      pkgfiles ["proj", "pkg"]
          [FsNode.dir "usr" [FsNode.dir "bin" [FsNode.file "tool"]]] =
        some ["/usr/bin/tool"] := by
  have hgen : ∀ (pkg_dir : List String) (children : List FsNode),
      noDirSymlinks children = true →
      pkgfiles pkg_dir children = some (specManifest children) := by
    intro pkg_dir children h
    unfold pkgfiles specManifest
    rw [visit_dirs_eq_spec pkg_dir children h]
    exact manifestLines_map pkg_dir (specFilePaths children)
  refine ⟨hgen, ?_⟩
  rw [hgen _ _ (by simp [noDirSymlinks])]
  simp only [specManifest, specFilePaths, List.map]
  decide

/-- C6 witness: the `usr/bin/tool` tree has no symlink-to-directory and a
concrete manifest equal to its spec manifest. -/
theorem manifest_lists_files_witness :
    noDirSymlinks
        [FsNode.dir "usr" [FsNode.dir "bin" [FsNode.file "tool"]]] = true ∧
      pkgfiles ["proj", "pkg"]
          [FsNode.dir "usr" [FsNode.dir "bin" [FsNode.file "tool"]]] =
        some (specManifest
          [FsNode.dir "usr" [FsNode.dir "bin" [FsNode.file "tool"]]]) :=
  ⟨by simp [noDirSymlinks],
    manifest_lists_files.1 ["proj", "pkg"]
      [FsNode.dir "usr" [FsNode.dir "bin" [FsNode.file "tool"]]]
      (by simp [noDirSymlinks])⟩

/-- Rust `Path::exists` over the model: the path is a known directory or
file. -/
abbrev FS.pathExists (fs : FS) (p : List String) : Prop :=
  p ∈ fs.dirs ∨ p ∈ fs.files

/-- Translated from `validate_absolute_path` in `src/path_utils.rs` (lines
44-54): fails `InvalidPath` unless the path is absolute, fails `InvalidPath`
unless it exists on disk, otherwise returns the path unchanged. -/
def validate_absolute_path (fs : FS) (path : RawPath) :
    Except PathError (List String) :=
  if path.absolute = false then .error (.invalidPath "Path must be absolute")
  else if fs.pathExists path.segs then .ok path.segs
  else .error (.invalidPath "Path does not exist")

/-- Rust `std::os::unix::fs::symlink` at the existence level: fails when the
link path already exists (`EEXIST`) or its parent directory is missing,
otherwise creates the link (recorded as a file entry — `FS` tracks only
existence, and the symlink's target is untouched). -/
def FS.symlinkCreate (fs : FS) (p : List String) : Except IoErr FS :=
  if fs.pathExists p then .error .alreadyExists
  else if p = [] then .error .alreadyExists
  else if p.dropLast ∈ fs.dirs then .ok ⟨fs.dirs, p :: fs.files⟩
  else .error .notFound

/-- Translated from `copy_dir_all` in `src/file_operations.rs` (lines
96-108), the per-entry loop: for each entry of the source directory (in
iteration order) recurse into a subdirectory (the recursive `copy_dir_all`
first runs `create_dir_all` on its destination) and `fs::copy` everything
else.  `DirEntry::file_type` does not follow symlinks, so a
symlink-to-directory entry takes the `fs::copy` branch, which fails on a
directory target. -/
def copy_entries (fs : FS) (dst : List String) : List FsNode → Except IoErr FS
  | [] => .ok fs
  | FsNode.file n :: rest =>
    match fs.fileCreate (dst ++ [n]) with
    | .error e => .error e
    | .ok fs1 => copy_entries fs1 dst rest
  | FsNode.symlink n :: rest =>
    match fs.fileCreate (dst ++ [n]) with
    | .error e => .error e
    | .ok fs1 => copy_entries fs1 dst rest
  | FsNode.symlinkDir _ _ :: _ => .error .isADirectory
  | FsNode.dir n cs :: rest =>
    match copy_entries (fs.createDirAll (dst ++ [n])) (dst ++ [n]) cs with
    | .error e => .error e
    | .ok fs1 => copy_entries fs1 dst rest

/-- `copy_dir_all` itself: `create_dir_all` on the destination (creating all
its missing ancestors), then copy the entries.  `src_entries` is the listing
of the source directory read by `read_dir`. -/
def copy_dir_all (fs : FS) (dst : List String) (src_entries : List FsNode) :
    Except IoErr FS :=
  copy_entries (fs.createDirAll dst) dst src_entries

/-- Translated from the `copy` handler in `src/lua_functions.rs` (lines
244-283): confine the source in the source root and the destination in the
package root; for a regular-file source create the destination's parent
directories when they do not exist, then `fs::copy`; for a directory source
run `copy_dir_all`; otherwise a recoverable runtime error. -/
def copy_op (fs : FS) (src_dir pkg_dir : List String) (src dest : RawPath)
    (src_entries : List FsNode) : Except HostErr FS :=
  match sanitize_path src_dir src with
  | .error e => .error (.path e)
  | .ok abs_src =>
    match sanitize_path pkg_dir dest with
    | .error e => .error (.path e)
    | .ok abs_dest =>
      if abs_src ∈ fs.files then
        let fs1 :=
          match abs_dest with
          | [] => fs
          | _ :: _ =>
            if fs.pathExists abs_dest.dropLast then fs
            else fs.createDirAll abs_dest.dropLast
        match fs1.fileCreate abs_dest with
        | .error e => .error (.io e)
        | .ok fs2 => .ok fs2
      else if abs_src ∈ fs.dirs then
        match copy_dir_all fs abs_dest src_entries with
        | .error e => .error (.io e)
        | .ok fs2 => .ok fs2
      else .error (.runtime "Source path is neither a file nor directory")

/-- Translated from the `link` handler in `src/lua_functions.rs` (lines
288-315): validate the absolute target, confine the link path in the package
root, `create_dir_all` on the link path's parent, then create the symlink at
the confined path. -/
def link_op (fs : FS) (pkg_dir : List String) (target link_path : RawPath) :
    Except HostErr FS :=
  match validate_absolute_path fs target with
  | .error e => .error (.path e)
  | .ok _ =>
    match sanitize_path pkg_dir link_path with
    | .error e => .error (.path e)
    | .ok abs_link =>
      let fs1 :=
        match abs_link with
        | [] => fs
        | _ :: _ => fs.createDirAll abs_link.dropLast
      match fs1.symlinkCreate abs_link with
      | .error e => .error (.io e)
      | .ok fs2 => .ok fs2

/-- The filesystem effect of the `git.clone` handler in
`src/lua_functions.rs` (lines 103-111) once its destination has been
confined (the confinement failure itself panics, see `git_clone_confine`):
`create_dir_all` on the destination's parent when it does not yet exist,
then `Repository::clone`, which creates the destination directory; a clone
failure (e.g. the parent is missing or not a directory) is mapped to a
recoverable runtime error by the handler's `map_err`. -/
def git_clone_fs (fs : FS) (abs_dest : List String) : Except HostErr FS :=
  let fs1 :=
    match abs_dest with
    | [] => fs
    | _ :: _ =>
      if fs.pathExists abs_dest.dropLast then fs
      else fs.createDirAll abs_dest.dropLast
  match abs_dest with
  | [] => .error (.runtime "clone failed")
  | _ :: _ =>
    if abs_dest.dropLast ∈ fs1.dirs then
      .ok ⟨abs_dest :: fs1.dirs, fs1.files⟩
    else .error (.runtime "clone failed")

lemma createDirAll_self_mem (fs : FS) (p : List String) :
    p ∈ (fs.createDirAll p).dirs :=
  List.mem_append.mpr (Or.inl (self_mem_listAncestors p))

lemma createDirAll_dirs_sub (fs : FS) (p : List String) :
    fs.dirs ⊆ (fs.createDirAll p).dirs :=
  List.subset_append_right _ _

lemma listAncestors_length (p : List String) :
    ∀ x ∈ listAncestors p, x.length ≤ p.length := by
  induction p with
  | nil =>
    intro x hx
    simp only [listAncestors, List.mem_singleton] at hx
    simp [hx]
  | cons a l ih =>
    intro x hx
    simp only [listAncestors, List.mem_cons, List.mem_map] at hx
    rcases hx with rfl | ⟨y, hy, rfl⟩
    · simp
    · simpa using Nat.succ_le_succ (ih y hy)

lemma fileCreate_parent_ok (fs : FS) (p : List String) (hne : p ≠ [])
    (hd : p.dropLast ∈ fs.dirs) :
    fs.fileCreate p = .ok ⟨fs.dirs, p :: fs.files⟩ := by
  rcases p with _ | ⟨a, l⟩
  · exact absurd rfl hne
  · simp only [FS.fileCreate, if_pos hd]

lemma fileCreate_ok_dirs (fs fs' : FS) (p : List String)
    (h : fs.fileCreate p = .ok fs') : fs'.dirs = fs.dirs := by
  rcases p with _ | ⟨a, l⟩
  · exact Except.noConfusion h
  · simp only [FS.fileCreate] at h
    split at h
    · cases h
      rfl
    · exact Except.noConfusion h

lemma copy_entries_ok (fs : FS) (dst : List String) (entries : List FsNode) :
    noDirSymlinks entries = true → dst ∈ fs.dirs →
    ∃ fs', copy_entries fs dst entries = .ok fs' ∧ fs.dirs ⊆ fs'.dirs := by
  induction fs, dst, entries using copy_entries.induct with
  | case1 fs dst =>
    intro _ _
    refine ⟨fs, ?_, fun _ hx => hx⟩
    simp [copy_entries]
  | case2 fs dst n rest e heq =>
    intro hn hd
    have hok := fileCreate_parent_ok fs (dst ++ [n]) (by simp)
      (by simpa using hd)
    rw [hok] at heq
    exact Except.noConfusion heq
  | case3 fs dst n rest fs2 heq ih =>
    intro hn hd
    have hdirs : fs2.dirs = fs.dirs := fileCreate_ok_dirs fs fs2 _ heq
    have hn' : noDirSymlinks rest = true := by simpa [noDirSymlinks] using hn
    obtain ⟨fs', hok, hsub⟩ := ih hn' (by rw [hdirs]; exact hd)
    refine ⟨fs', ?_, hdirs ▸ hsub⟩
    simp only [copy_entries, heq]
    exact hok
  | case4 fs dst n rest e heq =>
    intro hn hd
    have hok := fileCreate_parent_ok fs (dst ++ [n]) (by simp)
      (by simpa using hd)
    rw [hok] at heq
    exact Except.noConfusion heq
  | case5 fs dst n rest fs2 heq ih =>
    intro hn hd
    have hdirs : fs2.dirs = fs.dirs := fileCreate_ok_dirs fs fs2 _ heq
    have hn' : noDirSymlinks rest = true := by simpa [noDirSymlinks] using hn
    obtain ⟨fs', hok, hsub⟩ := ih hn' (by rw [hdirs]; exact hd)
    refine ⟨fs', ?_, hdirs ▸ hsub⟩
    simp only [copy_entries, heq]
    exact hok
  | case6 fs dst n cs rest =>
    intro hn _
    exact absurd hn (by simp [noDirSymlinks])
  | case7 fs dst n cs rest e heq ihc =>
    intro hn hd
    simp only [noDirSymlinks, Bool.and_eq_true] at hn
    obtain ⟨fs'', hok'', -⟩ :=
      ihc hn.1 (createDirAll_self_mem fs (dst ++ [n]))
    rw [hok''] at heq
    exact Except.noConfusion heq
  | case8 fs dst n cs rest fs2 heq ihc ihr =>
    intro hn hd
    simp only [noDirSymlinks, Bool.and_eq_true] at hn
    obtain ⟨fs'', hok'', hsub''⟩ :=
      ihc hn.1 (createDirAll_self_mem fs (dst ++ [n]))
    have hfs2 : fs2 = fs'' := by
      have h12 := heq.symm.trans hok''
      injection h12
    subst hfs2
    have hsub0 : fs.dirs ⊆ fs2.dirs :=
      fun x hx => hsub'' (createDirAll_dirs_sub fs (dst ++ [n]) hx)
    obtain ⟨fs', hok, hsub⟩ := ihr hn.2 (hsub0 hd)
    refine ⟨fs', ?_, fun x hx => hsub (hsub0 hx)⟩
    simp only [copy_entries, heq]
    exact hok

/-- C5 amended: every filesystem-mutating host operation except `download`
creates the missing parent directories of its confined destination before
writing — `file_save` (write_text) unconditionally, `copy` for both
regular-file and directory sources, `link` for the symlink path, and
`repo_clone` for the clone destination — so writing to a nested
not-yet-existing destination succeeds; `download` creates only the base
source directory itself and fails with an I/O `NotFound` whenever the
confined destination's parent directory is missing after that. -/
theorem mutating_ops_create_parents_except_download :
    (∀ (fs : FS) (src_dir : List String) (path : RawPath) (content : String)
        (q : List String), src_dir ≠ [] →
      sanitize_path src_dir path = .ok q →
      ∃ fs', file_save fs src_dir path content = .ok fs' ∧ q ∈ fs'.files) ∧
    (∀ (fs : FS) (src_dir pkg_dir : List String) (src dest : RawPath)
        (src_entries : List FsNode) (qs qd : List String), pkg_dir ≠ [] →
      sanitize_path src_dir src = .ok qs →
      sanitize_path pkg_dir dest = .ok qd →
      qs ∈ fs.files → qd.dropLast ∉ fs.files →
      ∃ fs', copy_op fs src_dir pkg_dir src dest src_entries = .ok fs' ∧
        qd ∈ fs'.files) ∧
    (∀ (fs : FS) (src_dir pkg_dir : List String) (src dest : RawPath)
        (src_entries : List FsNode) (qs qd : List String),
      sanitize_path src_dir src = .ok qs →
      sanitize_path pkg_dir dest = .ok qd →
      noDirSymlinks src_entries = true →
      qs ∉ fs.files → qs ∈ fs.dirs →
      ∃ fs', copy_op fs src_dir pkg_dir src dest src_entries = .ok fs' ∧
        qd ∈ fs'.dirs) ∧
    (∀ (fs : FS) (pkg_dir : List String) (target link_path : RawPath)
        (t q : List String), pkg_dir ≠ [] →
      validate_absolute_path fs target = .ok t →
      sanitize_path pkg_dir link_path = .ok q →
      ¬ fs.pathExists q →
      ∃ fs', link_op fs pkg_dir target link_path = .ok fs' ∧ q ∈ fs'.files) ∧
    (∀ (fs : FS) (src_dir : List String) (dest : Option RawPath)
        (q : List String), src_dir ≠ [] →
      sanitize_path src_dir (dest.getD ⟨false, ["."]⟩) = .ok q →
      q.dropLast ∉ fs.files →
      ∃ fs', git_clone_fs fs q = .ok fs' ∧ q ∈ fs'.dirs ∧
        q.dropLast ∈ fs'.dirs) ∧
    (∀ (fs : FS) (dest_dir : List String) (filename : RawPath)
        (q : List String),
      sanitize_path dest_dir filename = .ok q →
      q.dropLast ∉ (fs.createDirAll dest_dir).dirs →
      download_file_blocking fs dest_dir filename = .error (.io .notFound)) := by
  refine ⟨?_, ?_, ?_, ?_, ?_, ?_⟩
  · -- file_save
    intro fs src_dir path content q hsrc hok
    obtain ⟨-, hq⟩ := (sanitize_path_ok_iff _ _ _).mp hok
    rcases q with _ | ⟨a, l⟩
    · exact absurd (List.append_eq_nil.mp hq.symm).1 hsrc
    · refine ⟨⟨(fs.createDirAll ((a :: l).dropLast)).dirs,
        (a :: l) :: (fs.createDirAll ((a :: l).dropLast)).files⟩, ?_,
        List.mem_cons_self _ _⟩
      unfold file_save
      simp only [hok]
      have hmem : (a :: l).dropLast ∈
          (fs.createDirAll ((a :: l).dropLast)).dirs :=
        createDirAll_self_mem fs _
      simp only [FS.fileCreate, if_pos hmem]
  · -- copy, regular-file source
    intro fs src_dir pkg_dir src dest src_entries qs qd hpkg hoks hokd hsrc hpar
    obtain ⟨-, hq⟩ := (sanitize_path_ok_iff _ _ _).mp hokd
    rcases qd with _ | ⟨a, l⟩
    · exact absurd (List.append_eq_nil.mp hq.symm).1 hpkg
    · unfold copy_op
      simp only [hoks, hokd]
      rw [if_pos hsrc]
      by_cases hex : fs.pathExists ((a :: l).dropLast)
      · have hd : (a :: l).dropLast ∈ fs.dirs := hex.resolve_right hpar
        refine ⟨⟨fs.dirs, (a :: l) :: fs.files⟩, ?_, List.mem_cons_self _ _⟩
        rw [if_pos hex, fileCreate_parent_ok fs (a :: l) (by simp) hd]
      · have hd : (a :: l).dropLast ∈
            (fs.createDirAll ((a :: l).dropLast)).dirs :=
          createDirAll_self_mem fs _
        refine ⟨⟨(fs.createDirAll ((a :: l).dropLast)).dirs,
          (a :: l) :: (fs.createDirAll ((a :: l).dropLast)).files⟩, ?_,
          List.mem_cons_self _ _⟩
        rw [if_neg hex, fileCreate_parent_ok _ (a :: l) (by simp) hd]
  · -- copy, directory source
    intro fs src_dir pkg_dir src dest src_entries qs qd hoks hokd hnds hns hdir
    obtain ⟨fs', hok, hsub⟩ := copy_entries_ok (fs.createDirAll qd) qd
      src_entries hnds (createDirAll_self_mem fs qd)
    refine ⟨fs', ?_, hsub (createDirAll_self_mem fs qd)⟩
    unfold copy_op
    simp only [hoks, hokd]
    rw [if_neg hns, if_pos hdir]
    simp only [copy_dir_all]
    rw [hok]
  · -- link
    intro fs pkg_dir target link_path t q hpkg hval hok hnex
    obtain ⟨-, hq⟩ := (sanitize_path_ok_iff _ _ _).mp hok
    rcases q with _ | ⟨a, l⟩
    · exact absurd (List.append_eq_nil.mp hq.symm).1 hpkg
    · have h1 : ¬ (fs.createDirAll ((a :: l).dropLast)).pathExists (a :: l) := by
        intro hcon
        rcases hcon with hcd | hcf
        · rcases List.mem_append.mp hcd with hanc | hfs
          · have hle := listAncestors_length ((a :: l).dropLast) _ hanc
            have hdl : (a :: l).dropLast.length = l.length := by
              simp [List.length_dropLast]
            have hlen : (a :: l).length = l.length + 1 := by simp
            omega
          · exact hnex (Or.inl hfs)
        · exact hnex (Or.inr hcf)
      refine ⟨⟨(fs.createDirAll ((a :: l).dropLast)).dirs,
        (a :: l) :: (fs.createDirAll ((a :: l).dropLast)).files⟩, ?_,
        List.mem_cons_self _ _⟩
      unfold link_op
      simp only [hval, hok]
      simp only [FS.symlinkCreate]
      rw [if_neg h1, if_neg (by simp : ¬ (a :: l) = []),
        if_pos (createDirAll_self_mem fs ((a :: l).dropLast))]
  · -- repo_clone
    intro fs src_dir dest q hsrc hok hpar
    obtain ⟨-, hq⟩ := (sanitize_path_ok_iff _ _ _).mp hok
    rcases q with _ | ⟨a, l⟩
    · exact absurd (List.append_eq_nil.mp hq.symm).1 hsrc
    · unfold git_clone_fs
      by_cases hex : fs.pathExists ((a :: l).dropLast)
      · have hd : (a :: l).dropLast ∈ fs.dirs := hex.resolve_right hpar
        refine ⟨⟨(a :: l) :: fs.dirs, fs.files⟩, ?_,
          List.mem_cons_self _ _, List.mem_cons_of_mem _ hd⟩
        simp only [if_pos hex]
        rw [if_pos hd]
      · have hd : (a :: l).dropLast ∈
            (fs.createDirAll ((a :: l).dropLast)).dirs :=
          createDirAll_self_mem fs _
        refine ⟨⟨(a :: l) :: (fs.createDirAll ((a :: l).dropLast)).dirs,
          (fs.createDirAll ((a :: l).dropLast)).files⟩, ?_,
          List.mem_cons_self _ _, List.mem_cons_of_mem _ hd⟩
        simp only [if_neg hex]
        rw [if_pos hd]
  · -- download
    intro fs dest_dir filename q hok hnot
    unfold download_file_blocking
    simp only [hok]
    rcases q with _ | ⟨a, l⟩
    · simp [FS.fileCreate]
    · simp only [FS.fileCreate, if_neg hnot]

/-- C5 witness: concrete nested destinations succeed for `file_save`, both
`copy` branches, `link` and `repo_clone`, while the counterexample download
fails. -/
theorem mutating_ops_create_parents_except_download_witness :
    (∃ fs', file_save ⟨[], []⟩ ["work", "src"] ⟨false, ["a", "b.txt"]⟩
        "data" = .ok fs' ∧ ["work", "src", "a", "b.txt"] ∈ fs'.files) ∧
      (∃ fs', copy_op ⟨[], [["work", "src", "bin"]]⟩ ["work", "src"]
          ["work", "pkg"] ⟨false, ["bin"]⟩ ⟨false, ["usr", "bin", "tool"]⟩
          [] = .ok fs' ∧
        ["work", "pkg", "usr", "bin", "tool"] ∈ fs'.files) ∧
      (∃ fs', copy_op ⟨[["work", "src", "d"]], []⟩ ["work", "src"]
          ["work", "pkg"] ⟨false, ["d"]⟩ ⟨false, ["usr", "share", "d"]⟩
          [FsNode.file "f"] = .ok fs' ∧
        ["work", "pkg", "usr", "share", "d"] ∈ fs'.dirs) ∧
      (∃ fs', link_op ⟨[["opt"]], [["opt", "lib.so"]]⟩ ["work", "pkg"]
          ⟨true, ["opt", "lib.so"]⟩ ⟨false, ["usr", "lib", "lib.so"]⟩ =
          .ok fs' ∧
        ["work", "pkg", "usr", "lib", "lib.so"] ∈ fs'.files) ∧
      (∃ fs', git_clone_fs ⟨[], []⟩ ["work", "src", "repo"] = .ok fs' ∧
        ["work", "src", "repo"] ∈ fs'.dirs ∧
        (["work", "src", "repo"]).dropLast ∈ fs'.dirs) ∧
      download_file_blocking ⟨[["work"]], []⟩ ["work", "src"]
        ⟨false, ["a", "b.txt"]⟩ = .error (.io .notFound) :=
  ⟨mutating_ops_create_parents_except_download.1 ⟨[], []⟩ ["work", "src"]
      ⟨false, ["a", "b.txt"]⟩ "data" ["work", "src", "a", "b.txt"]
      (by decide) rfl,
    mutating_ops_create_parents_except_download.2.1
      ⟨[], [["work", "src", "bin"]]⟩ ["work", "src"] ["work", "pkg"]
      ⟨false, ["bin"]⟩ ⟨false, ["usr", "bin", "tool"]⟩ []
      ["work", "src", "bin"] ["work", "pkg", "usr", "bin", "tool"]
      (by decide) rfl rfl (by decide) (by decide),
    mutating_ops_create_parents_except_download.2.2.1
      ⟨[["work", "src", "d"]], []⟩ ["work", "src"] ["work", "pkg"]
      ⟨false, ["d"]⟩ ⟨false, ["usr", "share", "d"]⟩ [FsNode.file "f"]
      ["work", "src", "d"] ["work", "pkg", "usr", "share", "d"]
      rfl rfl (by simp [noDirSymlinks]) (by decide) (by decide),
    mutating_ops_create_parents_except_download.2.2.2.1
      ⟨[["opt"]], [["opt", "lib.so"]]⟩ ["work", "pkg"]
      ⟨true, ["opt", "lib.so"]⟩ ⟨false, ["usr", "lib", "lib.so"]⟩
      ["opt", "lib.so"] ["work", "pkg", "usr", "lib", "lib.so"]
      (by decide) rfl rfl (by decide),
    mutating_ops_create_parents_except_download.2.2.2.2.1 ⟨[], []⟩
      ["work", "src"] (some ⟨false, ["repo"]⟩) ["work", "src", "repo"]
      (by decide) rfl (by decide),
    mutating_ops_create_parents_except_download.2.2.2.2.2 ⟨[["work"]], []⟩
      ["work", "src"] ⟨false, ["a", "b.txt"]⟩ ["work", "src", "a", "b.txt"]
      rfl (by decide)⟩
